import Mathlib

/-!
Verification of the feed ingestion and unread-entry store of the
`rss_reader` repository (src/db.py and the ingestion phase of
`RSSReaderGUI.fetch_and_show` in src/main.py).

The SQLite-backed store is shallowly embedded as a pure state type `DB`:
the `feeds` table is a list of `Feed` rows in rowid (insertion) order, the
`entries` table a list of `Entry` rows in rowid (insertion) order, and
`seq` models the AUTOINCREMENT sequence for `feeds.id`.  Each db.py
function becomes a pure function `DB → ... → DB` (each Python function
runs one implicit transaction, so sequential function application is the
faithful meaning).

Two facts about the external systems are part of the embedding and are
modelled where they are used:
 * sqlite3 in Python does not enforce `REFERENCES` clauses unless
   `PRAGMA foreign_keys = ON` is issued on the connection; db.py never
   issues it, so `add_entry` performs no foreign-key check.
 * SQLite's `datetime(v)` on a bare numeric value interprets `v` as a
   Julian day number, valid only for `0 ≤ v ≤ 5373484` (the millisecond
   Julian-day range 0 .. 464269060799999); out-of-range values yield NULL,
   and in `ORDER BY ... DESC` NULL sorts after every non-NULL value.
-/

namespace RSSReader

/-- A row of the `feeds` table: `id INTEGER PRIMARY KEY AUTOINCREMENT`,
`url TEXT UNIQUE NOT NULL`, `title TEXT`. -/
structure Feed where
  id : Nat
  url : String
  title : String
deriving DecidableEq, Repr

/-- A row of the `entries` table: `id TEXT PRIMARY KEY`, `feed_id INTEGER
NOT NULL REFERENCES feeds(id)`, `title`, `link`, `published`,
`read INTEGER DEFAULT 0`.  `published` is stored by main.py as an integer
epoch-seconds value (`epoch = int(dt.timestamp())`, or `0` when the date
does not parse), so it is modelled as `Int`; `read` (0 or 1) as `Bool`. -/
structure Entry where
  id : String
  feed_id : Nat
  title : String
  link : String
  published : Int
  rd : Bool
deriving DecidableEq, Repr

/-- The store state: both tables in rowid order plus the AUTOINCREMENT
sequence value for `feeds` (largest feed id ever assigned). -/
structure DB where
  feeds : List Feed
  entries : List Entry
  seq : Nat
deriving DecidableEq, Repr

/-- `init_db`: fresh schema, both tables empty (`CREATE TABLE IF NOT
EXISTS` on an empty database). -/
def initDb : DB := ⟨[], [], 0⟩

/-- Helper for `add_feed`'s `INSERT OR IGNORE` conflict test on the
`UNIQUE` column `url`. -/
def hasFeedUrl (db : DB) (url : String) : Bool :=
  db.feeds.any (fun f => f.url = url)

/-- db.py `add_feed(url, title=None)`:
`INSERT OR IGNORE INTO feeds (url, title) VALUES (?, ?)` with the Python
argument `title or url` (so `None` and the empty string both default to
`url`).  AUTOINCREMENT assigns id `seq + 1`. -/
def add_feed (db : DB) (url : String) (title : Option String) : DB :=
  if hasFeedUrl db url then db
  else
    { db with
      feeds := db.feeds ++ [⟨db.seq + 1, url, if title.getD "" = "" then url else title.getD ""⟩],
      seq := db.seq + 1 }

/-- db.py `remove_feed`'s lookup `SELECT id FROM feeds WHERE url = ?`
(`fetchone`: first matching row). -/
def findFeedId (db : DB) (url : String) : Option Nat :=
  (db.feeds.find? (fun f => f.url = url)).map (fun f => f.id)

/-- db.py `remove_feed(url)`: look up the feed id by url; if absent return
silently; else `DELETE FROM entries WHERE feed_id = ?` then
`DELETE FROM feeds WHERE id = ?`, one transaction. -/
def remove_feed (db : DB) (url : String) : DB :=
  match findFeedId db url with
  | none => db
  | some fid =>
    { db with
      entries := db.entries.filter (fun e => e.feed_id ≠ fid),
      feeds := db.feeds.filter (fun f => f.id ≠ fid) }

/-- db.py `get_feeds()`: `SELECT * FROM feeds`, rowid order. -/
def get_feeds (db : DB) : List Feed := db.feeds

/-- Conflict test for `add_entry`'s `INSERT OR IGNORE` on the primary key
`entries.id`. -/
def hasEntry (db : DB) (eid : String) : Bool :=
  db.entries.any (fun e => e.id = eid)

/-- db.py `add_entry(entry_id, feed_id, title, link, published)`:
`INSERT OR IGNORE INTO entries (id, feed_id, title, link, published)
VALUES (?, ?, ?, ?, ?)`; `read` takes its column default 0.  There is no
foreign-key check on `feed_id`: the schema's `REFERENCES feeds(id)` is not
enforced because the connection never runs `PRAGMA foreign_keys = ON`. -/
def add_entry (db : DB) (eid : String) (fid : Nat)
    (title link : String) (published : Int) : DB :=
  if hasEntry db eid then db
  else { db with entries := db.entries ++ [⟨eid, fid, title, link, published, false⟩] }

/-- db.py `mark_entry_read(entry_id)`:
`UPDATE entries SET read = 1 WHERE id = ?`. -/
def mark_entry_read (db : DB) (eid : String) : DB :=
  { db with
    entries := db.entries.map (fun e => if e.id = eid then { e with rd := true } else e) }

/-- A result row of `get_unread_entries`:
`SELECT e.id, e.title, e.link, e.published, f.url AS feed_url`. -/
structure UnreadRow where
  id : String
  title : String
  link : String
  published : Int
  feed_url : String
deriving DecidableEq, Repr

/-- The sort key SQLite computes for `datetime(e.published)` when
`published` holds a numeric value `v`: `v` is read as a Julian day number,
valid exactly when `0 ≤ v ≤ 5373484` (the stored millisecond Julian date
must lie in 0 .. 464269060799999); otherwise `datetime` returns NULL,
modelled as `none`.  In-range keys are compared here by the Julian day
value itself, which agrees with SQLite's BINARY comparison of the rendered
`datetime` text whenever at most one operand renders to a negative-year
date (always the case in the states this file evaluates, where the only
in-range value is 0). -/
def sqliteDatetimeKey (v : Int) : Option Int :=
  if 0 ≤ v ∧ v ≤ 5373484 then some v else none

/-- Strict "sorts earlier than" for `ORDER BY key DESC` output positions
reversed: `keyLt a b` means `a` is strictly smaller in SQLite's ordering,
where NULL is smaller than every non-NULL value (hence placed last by
`DESC`). -/
def keyLt (a b : Option Int) : Bool :=
  match a, b with
  | none, none => false
  | none, some _ => true
  | some _, none => false
  | some x, some y => x < y

/-- Sort key of a result row: `datetime(e.published)`. -/
def rowKey (r : UnreadRow) : Option Int := sqliteDatetimeKey r.published

/-- Stable descending insertion for the `ORDER BY datetime(e.published)
DESC` sort (SQLite leaves the relative order of equal keys unspecified;
this model keeps scan order, which never matters to the theorems below). -/
def insertDesc (x : UnreadRow) : List UnreadRow → List UnreadRow
  | [] => [x]
  | y :: ys => if keyLt (rowKey x) (rowKey y) then y :: insertDesc x ys else x :: y :: ys

/-- `ORDER BY datetime(e.published) DESC` applied to the joined rows. -/
def sortDesc (l : List UnreadRow) : List UnreadRow :=
  l.foldr insertDesc []

/-- The `FROM entries e JOIN feeds f ON e.feed_id = f.id WHERE e.read = 0`
row set, in table-scan order. -/
def joinRows (db : DB) : List UnreadRow :=
  (db.entries.filter (fun e => e.rd = false)).flatMap (fun e =>
    (db.feeds.filter (fun f => f.id = e.feed_id)).map (fun f =>
      ⟨e.id, e.title, e.link, e.published, f.url⟩))

/-- db.py `get_unread_entries()`: the join above ordered by
`datetime(e.published) DESC`. -/
def get_unread_entries (db : DB) : List UnreadRow :=
  sortDesc (joinRows db)

/-- A raw item of one fetched feed, as `fetch_and_show` reads it off a
feedparser entry: `entry.get("id")` (the item guid, `none` when absent),
`entry.get("title", "")`, `entry.link`, `entry.get("published", "")`
(`none` when absent, defaulted to `""` at use sites). -/
structure Item where
  guid : Option String
  title : Option String
  link : String
  publishedRaw : Option String
deriving DecidableEq, Repr

/-- main.py line `eid = entry.get("id") or (entry.link + entry.get("published", ""))`:
Python `or` takes the right operand when the guid is absent OR the empty
string (falsy). -/
def deriveEntryId (it : Item) : String :=
  match it.guid with
  | some g => if g = "" then it.link ++ it.publishedRaw.getD "" else g
  | none => it.link ++ it.publishedRaw.getD ""

/-- main.py's published normalization: `parsedate_to_datetime(pub_raw)`
then UTC-normalized `int(dt.timestamp())`, with every parse failure mapped
to the sentinel epoch `0`.  `pubParse` stands for the external
`email.utils` date parser composed with `timestamp`; it is a parameter
since the parser is an external library. -/
def entryEpoch (pubParse : String → Option Int) (it : Item) : Int :=
  match pubParse (it.publishedRaw.getD "") with
  | some t => t
  | none => 0

/-- The inner loop of `fetch_and_show` phase 1 for one feed: each parsed
item is normalized and passed to `add_entry` with this feed's id. -/
def ingest_items (pubParse : String → Option Int) (fid : Nat)
    (items : List Item) (db : DB) : DB :=
  items.foldl (fun s it =>
    add_entry s (deriveEntryId it) fid (it.title.getD "") it.link
      (entryEpoch pubParse it)) db

/-- The loop body of `fetch_and_show` phase 1 for one feed: run the
fetcher on the feed's url and ingest the returned items.  `fetch` models
`feedparser.parse(url).entries`; feedparser never raises on a fetch or
parse failure — it returns a result whose `entries` is empty (bozo flag
set) — so a failing feed (`none`) contributes no items and control
continues with the next feed. -/
def ingest_one (pubParse : String → Option Int)
    (fetch : String → Option (List Item)) (db : DB) (f : Feed) : DB :=
  match fetch f.url with
  | none => db
  | some items => ingest_items pubParse f.id items db

/-- The `for feed in get_feeds():` loop of `fetch_and_show` phase 1 over a
given feed list. -/
def ingest_feeds (pubParse : String → Option Int)
    (fetch : String → Option (List Item)) (fs : List Feed) (db : DB) : DB :=
  fs.foldl (ingest_one pubParse fetch) db

/-- The ingestion phase of `fetch_and_show`: the loop above run over
`get_feeds()`. -/
def refresh_ingest (pubParse : String → Option Int)
    (fetch : String → Option (List Item)) (db : DB) : DB :=
  ingest_feeds pubParse fetch (get_feeds db) db

/-- The `entries.id TEXT PRIMARY KEY` uniqueness invariant: at most one
Entry row per id. -/
def EntriesUnique (db : DB) : Prop :=
  (db.entries.map (fun e => e.id)).Nodup

/-- Store states reachable through the program's operations, starting from
the freshly initialized schema. -/
inductive Reachable : DB → Prop
  | init : Reachable initDb
  | addFeed (db : DB) (u : String) (t : Option String) :
      Reachable db → Reachable (add_feed db u t)
  | removeFeed (db : DB) (u : String) :
      Reachable db → Reachable (remove_feed db u)
  | addEntry (db : DB) (eid : String) (fid : Nat) (t l : String) (p : Int) :
      Reachable db → Reachable (add_entry db eid fid t l p)
  | markRead (db : DB) (eid : String) :
      Reachable db → Reachable (mark_entry_read db eid)
  | refresh (db : DB) (pubParse : String → Option Int)
      (fetch : String → Option (List Item)) :
      Reachable db → Reachable (refresh_ingest pubParse fetch db)

/-- Concrete store with one feed and three unread entries whose stored
`published` epochs are 1609459200 (2021-01-01 00:00:00 UTC), 1685577600
(2023-06-01 00:00:00 UTC) and 0 (the missing/unparseable sentinel), built
through the store operations. -/
def dbOrder : DB :=
  add_entry
    (add_entry
      (add_entry (add_feed initDb "u" none) "e2021" 1 "a" "l1" 1609459200)
      "e2023" 1 "b" "l2" 1685577600)
    "emiss" 1 "c" "l3" 0

/-- Concrete store with two feeds (ids 1 and 2) and one unread entry "x"
owned by feed 1, built through the store operations. -/
def dbTwo : DB :=
  add_entry (add_feed (add_feed initDb "u1" none) "u2" none) "x" 1 "t" "l" 5

/-- Concrete item whose guid is present but empty, with a nonempty link
and raw published string. -/
def itemEmptyGuid : Item := ⟨some "", some "t", "L", some "P"⟩

/-- Concrete fetcher for the partial-failure witness: the feed at url "u1"
fails to fetch or parse, the feed at url "u2" yields one item. -/
def fetchTwo : String → Option (List Item) :=
  fun u => if u = "u2" then some [⟨some "g2", some "t2", "l2", some "Jan"⟩] else none

/-- Concrete store with two feeds (ids 1 and 2, urls "u1" and "u2") and no
entries, built through the store operations. -/
def dbTwoFeeds : DB := add_feed (add_feed initDb "u1" none) "u2" none

/-- An entry with id `did` has landed in the store unread, owned by one of
the feed ids in `fids`. -/
def entryLanded (db : DB) (did : String) (fids : List Nat) : Prop :=
  ∃ e, e ∈ db.entries ∧ e.id = did ∧ e.rd = false ∧ e.feed_id ∈ fids

/-- Loop invariant for the ingestion fold: either no entry with id `did`
exists yet, or one has landed unread under a feed id from `fids`. -/
def entryPre (db : DB) (did : String) (fids : List Nat) : Prop :=
  hasEntry db did = false ∨ entryLanded db did fids

theorem add_entry_of_hasEntry (db : DB) (eid : String) (fid : Nat)
    (t l : String) (p : Int) (h : hasEntry db eid = true) :
    add_entry db eid fid t l p = db := by
  simp [add_entry, h]

theorem add_entry_feeds (db : DB) (eid : String) (fid : Nat)
    (t l : String) (p : Int) : (add_entry db eid fid t l p).feeds = db.feeds := by
  unfold add_entry
  split <;> rfl

theorem mem_entries_add_entry (db : DB) (eid : String) (fid : Nat)
    (t l : String) (p : Int) (e : Entry) (he : e ∈ db.entries) :
    e ∈ (add_entry db eid fid t l p).entries := by
  unfold add_entry
  split
  · exact he
  · exact List.mem_append_left _ he

theorem hasEntry_add_entry_self (db : DB) (eid : String) (fid : Nat)
    (t l : String) (p : Int) : hasEntry (add_entry db eid fid t l p) eid = true := by
  unfold add_entry
  split
  · assumption
  · simp [hasEntry]

theorem hasEntry_mono_add_entry (db : DB) (eid : String) (fid : Nat)
    (t l : String) (p : Int) (i : String) (h : hasEntry db i = true) :
    hasEntry (add_entry db eid fid t l p) i = true := by
  unfold add_entry
  split
  · exact h
  · simp only [hasEntry, List.any_append]
    rw [hasEntry] at h
    rw [h]
    rfl

theorem mem_insertDesc (x a : UnreadRow) (l : List UnreadRow) :
    a ∈ insertDesc x l ↔ a = x ∨ a ∈ l := by
  induction l with
  | nil => simp [insertDesc]
  | cons y ys ih =>
    unfold insertDesc
    split
    · simp only [List.mem_cons, ih]
      tauto
    · simp only [List.mem_cons]

theorem mem_sortDesc (a : UnreadRow) (l : List UnreadRow) :
    a ∈ sortDesc l ↔ a ∈ l := by
  induction l with
  | nil => simp [sortDesc]
  | cons y ys ih =>
    show a ∈ insertDesc y (sortDesc ys) ↔ _
    rw [mem_insertDesc]
    simp [ih]

theorem mem_joinRows (db : DB) (r : UnreadRow) :
    r ∈ joinRows db ↔
      ∃ e, e ∈ db.entries ∧ e.rd = false ∧
        ∃ f, f ∈ db.feeds ∧ f.id = e.feed_id ∧
          r = ⟨e.id, e.title, e.link, e.published, f.url⟩ := by
  simp only [joinRows, List.mem_flatMap, List.mem_filter, List.mem_map,
    decide_eq_true_eq]
  constructor
  · rintro ⟨e, ⟨he, hrd⟩, f, ⟨hf, hfid⟩, rfl⟩
    exact ⟨e, he, hrd, f, hf, hfid, rfl⟩
  · rintro ⟨e, he, hrd, f, hf, hfid, rfl⟩
    exact ⟨e, ⟨he, hrd⟩, f, ⟨hf, hfid⟩, rfl⟩

theorem mem_get_unread (db : DB) (r : UnreadRow) :
    r ∈ get_unread_entries db ↔
      ∃ e, e ∈ db.entries ∧ e.rd = false ∧
        ∃ f, f ∈ db.feeds ∧ f.id = e.feed_id ∧
          r = ⟨e.id, e.title, e.link, e.published, f.url⟩ := by
  rw [get_unread_entries, mem_sortDesc, mem_joinRows]

theorem mark_read_of_id (db : DB) (X : String) (e : Entry)
    (he : e ∈ (mark_entry_read db X).entries) (hid : e.id = X) : e.rd = true := by
  simp only [mark_entry_read, List.mem_map] at he
  obtain ⟨e0, _, rfl⟩ := he
  by_cases h : e0.id = X
  · simp [h]
  · simp only [h, if_false] at hid ⊢

theorem mark_idem (db : DB) (X : String) :
    mark_entry_read (mark_entry_read db X) X = mark_entry_read db X := by
  simp only [mark_entry_read, List.map_map]
  congr 1
  apply List.map_congr_left
  intro e _
  by_cases h : e.id = X <;> simp [h, Function.comp]

theorem mark_nonexistent (db : DB) (X : String) (h : hasEntry db X = false) :
    mark_entry_read db X = db := by
  have hall : ∀ e ∈ db.entries, ¬(e.id = X) := by
    intro e he
    simp only [hasEntry, List.any_eq_false, decide_eq_true_eq] at h
    exact h e he
  have hmap : db.entries.map (fun e => if e.id = X then { e with rd := true } else e)
      = db.entries := by
    rw [show db.entries = db.entries.map id from (List.map_id _).symm]
    rw [List.map_map]
    apply List.map_congr_left
    intro e he
    simp [hall e (by simpa using he)]
  rw [mark_entry_read, hmap]

/-- C1: evaluation of `get_unread_entries` at the failing input — a store
holding three unread entries whose stored epochs are 1685577600
(2023-06-01), 1609459200 (2021-01-01) and 0 (missing/unparseable).
Because `ORDER BY datetime(e.published) DESC` reads the stored epoch as a
Julian day number, the two genuine timestamps are out of range and get a
NULL sort key (placed last), while the missing-date sentinel 0 is a valid
Julian day and is placed FIRST.  The returned order therefore starts with
the missing-date entry and is not the claimed
[2023-06-01, 2021-01-01, missing]. -/
theorem unread_order_missing_first_bug :
    ((get_unread_entries dbOrder).map (fun r => r.id)).head? = some "emiss" ∧
    (get_unread_entries dbOrder).map (fun r => r.id) ≠ ["e2023", "e2021", "emiss"] := by
  constructor
  · rfl
  · decide

/-- C2: `add_entry` with a `feed_id` that matches no Feed row is not
rejected — the schema's `REFERENCES feeds(id)` clause is unenforced
because the connection never runs `PRAGMA foreign_keys = ON`.  On the
empty store (no feeds at all), inserting entry "e1" with feed_id 1
succeeds and the orphan row persists; once a feed is later added (getting
AUTOINCREMENT id 1), the orphan row even becomes visible through
`get_unread_entries`. -/
theorem orphan_entry_not_rejected_bug :
    initDb.feeds = [] ∧
    (add_entry initDb "e1" 1 "t" "l" 0).entries = [⟨"e1", 1, "t", "l", 0, false⟩] ∧
    (get_unread_entries (add_feed (add_entry initDb "e1" 1 "t" "l" 0) "u" none)).map
      (fun r => r.id) = ["e1"] := by
  refine ⟨rfl, rfl, ?_⟩
  decide

/-- C4: a later `add_entry` call reusing the id of an existing Entry row
is a complete no-op: the whole store state (hence every field of the
existing row, including `read`, and everything else) is unchanged. -/
theorem add_entry_existing_id_noop (db : DB) (eid : String) (fid : Nat)
    (t l : String) (p : Int) (h : hasEntry db eid = true) :
    add_entry db eid fid t l p = db :=
  add_entry_of_hasEntry db eid fid t l p h

/-- Witness for C4 at a concrete store: entry "x" exists in `dbTwo`, and
re-adding id "x" with different feed, title, link and published leaves the
store unchanged. -/
theorem add_entry_existing_id_noop_witness :
    hasEntry dbTwo "x" = true ∧ add_entry dbTwo "x" 2 "q" "w" 9 = dbTwo :=
  ⟨by decide, add_entry_existing_id_noop dbTwo "x" 2 "q" "w" 9 (by decide)⟩

/-- C6: when `url` names an existing feed (lookup finds id `fid`),
`remove_feed` deletes exactly the entries owned by `fid` and the feed row
itself, in one state transition (the embedding of the single transaction);
afterwards no entry with the former feed id remains queryable. -/
theorem remove_feed_cascade (db : DB) (url : String) (fid : Nat)
    (h : findFeedId db url = some fid) :
    (remove_feed db url).entries = db.entries.filter (fun e => e.feed_id ≠ fid) ∧
    (remove_feed db url).feeds = db.feeds.filter (fun f => f.id ≠ fid) ∧
    ∀ e ∈ (remove_feed db url).entries, e.feed_id ≠ fid := by
  refine ⟨by rw [remove_feed, h], by rw [remove_feed, h], ?_⟩
  intro e he
  rw [remove_feed, h] at he
  have := List.of_mem_filter he
  simpa using this

/-- Witness for C6 at a concrete store: removing url "u1" from `dbTwo`
(feed id 1, owning entry "x"). -/
theorem remove_feed_cascade_witness :
    findFeedId dbTwo "u1" = some 1 ∧
    ((remove_feed dbTwo "u1").entries = dbTwo.entries.filter (fun e => e.feed_id ≠ 1) ∧
     (remove_feed dbTwo "u1").feeds = dbTwo.feeds.filter (fun f => f.id ≠ 1) ∧
     ∀ e ∈ (remove_feed dbTwo "u1").entries, e.feed_id ≠ 1) :=
  ⟨by decide, remove_feed_cascade dbTwo "u1" 1 (by decide)⟩

/-- C7: after `mark_entry_read db X` the id `X` never appears in
`get_unread_entries`; a second `mark_entry_read` of the same id changes
nothing; and `mark_entry_read` of an id with no Entry row leaves the store
exactly as it was. -/
theorem mark_read_spec (db : DB) (X : String) :
    (∀ r ∈ get_unread_entries (mark_entry_read db X), r.id ≠ X) ∧
    mark_entry_read (mark_entry_read db X) X = mark_entry_read db X ∧
    (hasEntry db X = false → mark_entry_read db X = db) := by
  refine ⟨?_, mark_idem db X, mark_nonexistent db X⟩
  intro r hr hX
  obtain ⟨e, he, hrd, f, _, _, rfl⟩ := (mem_get_unread _ r).1 hr
  have : e.rd = true := mark_read_of_id db X e he hX
  rw [this] at hrd
  cases hrd

/-- Witness for C7: marking the nonexistent id "nope" on the concrete
store `dbTwo` is a silent no-op, and re-marking "x" is idempotent. -/
theorem mark_read_spec_witness :
    mark_entry_read dbTwo "nope" = dbTwo ∧
    mark_entry_read (mark_entry_read dbTwo "x") "x" = mark_entry_read dbTwo "x" :=
  ⟨(mark_read_spec dbTwo "nope").2.2 (by decide), (mark_read_spec dbTwo "x").2.1⟩

/-- C8 counterexample: the claim "when a guid is present the guid itself
is used as the id" fails at an item whose guid is present but empty — the
Python expression `entry.get("id") or (entry.link + ...)` treats the empty
string as falsy, so the derived id is the link/published fallback "LP",
not the guid "". -/
theorem derive_id_empty_guid_cex :
    itemEmptyGuid.guid = some "" ∧ deriveEntryId itemEmptyGuid = "LP" ∧
    deriveEntryId itemEmptyGuid ≠ "" := by
  refine ⟨rfl, rfl, ?_⟩
  decide

/-- C8 amended: when a NONEMPTY guid is present it is used as the id;
when the guid is absent or empty, the id is the deterministic
concatenation of the item's link with its raw published string (defaulted
to "" when absent), so two fetch cycles with identical link and raw
published string derive the same id. -/
theorem derive_id_amended (g link : String) (ti pr : Option String)
    (hg : g ≠ "") :
    deriveEntryId ⟨some g, ti, link, pr⟩ = g ∧
    deriveEntryId ⟨none, ti, link, pr⟩ = link ++ pr.getD "" ∧
    deriveEntryId ⟨some "", ti, link, pr⟩ = link ++ pr.getD "" := by
  refine ⟨?_, rfl, rfl⟩
  simp [deriveEntryId, hg]

/-- Witness for the amended C8 at concrete inputs. -/
theorem derive_id_amended_witness :
    deriveEntryId ⟨some "G", none, "L", some "P"⟩ = "G" ∧
    deriveEntryId ⟨none, none, "L", some "P"⟩ = "L" ++ (some "P").getD "" ∧
    deriveEntryId ⟨some "", none, "L", some "P"⟩ = "L" ++ (some "P").getD "" :=
  derive_id_amended "G" "L" none (some "P") (by decide)

/-- C10: every row returned by `get_unread_entries` originates, through
the inner join `JOIN feeds f ON e.feed_id = f.id`, from an unread Entry
row whose owning Feed row exists; an entry whose `feed_id` matches no feed
can therefore never contribute a row, even when unread. -/
theorem unread_rows_have_existing_feed (db : DB) (r : UnreadRow)
    (h : r ∈ get_unread_entries db) :
    ∃ e, e ∈ db.entries ∧ e.rd = false ∧
      ∃ f, f ∈ db.feeds ∧ f.id = e.feed_id ∧
        r = ⟨e.id, e.title, e.link, e.published, f.url⟩ :=
  (mem_get_unread db r).1 h

theorem ingest_items_nil (p : String → Option Int) (fid : Nat) (db : DB) :
    ingest_items p fid [] db = db := rfl

theorem ingest_items_cons (p : String → Option Int) (fid : Nat)
    (it : Item) (rest : List Item) (db : DB) :
    ingest_items p fid (it :: rest) db =
      ingest_items p fid rest
        (add_entry db (deriveEntryId it) fid (it.title.getD "") it.link
          (entryEpoch p it)) := rfl

theorem ingest_items_feeds (p : String → Option Int) (fid : Nat)
    (items : List Item) (db : DB) :
    (ingest_items p fid items db).feeds = db.feeds := by
  induction items generalizing db with
  | nil => rfl
  | cons it rest ih => rw [ingest_items_cons, ih, add_entry_feeds]

theorem hasEntry_mono_ingest_items (p : String → Option Int) (fid : Nat)
    (items : List Item) (db : DB) (i : String) (h : hasEntry db i = true) :
    hasEntry (ingest_items p fid items db) i = true := by
  induction items generalizing db with
  | nil => exact h
  | cons it rest ih =>
    rw [ingest_items_cons]
    exact ih _ (hasEntry_mono_add_entry db _ fid _ _ _ i h)

theorem hasEntry_ingest_items_mem (p : String → Option Int) (fid : Nat)
    (items : List Item) (db : DB) (it : Item) (hit : it ∈ items) :
    hasEntry (ingest_items p fid items db) (deriveEntryId it) = true := by
  induction items generalizing db with
  | nil => cases hit
  | cons it0 rest ih =>
    rw [ingest_items_cons]
    rcases List.mem_cons.1 hit with h | h
    · subst h
      exact hasEntry_mono_ingest_items p fid rest _ _
        (hasEntry_add_entry_self db _ fid _ _ _)
    · exact ih _ h

theorem ingest_items_noop (p : String → Option Int) (fid : Nat)
    (items : List Item) (db : DB)
    (h : ∀ it ∈ items, hasEntry db (deriveEntryId it) = true) :
    ingest_items p fid items db = db := by
  induction items with
  | nil => rfl
  | cons it0 rest ih =>
    rw [ingest_items_cons,
      add_entry_of_hasEntry db _ fid _ _ _ (h it0 (List.mem_cons_self _ _))]
    exact ih (fun it hit => h it (List.mem_cons_of_mem _ hit))

theorem ingest_one_feeds (p : String → Option Int)
    (F : String → Option (List Item)) (db : DB) (f : Feed) :
    (ingest_one p F db f).feeds = db.feeds := by
  unfold ingest_one
  cases F f.url with
  | none => rfl
  | some items => exact ingest_items_feeds p f.id items db

theorem hasEntry_mono_ingest_one (p : String → Option Int)
    (F : String → Option (List Item)) (db : DB) (f : Feed) (i : String)
    (h : hasEntry db i = true) : hasEntry (ingest_one p F db f) i = true := by
  unfold ingest_one
  cases F f.url with
  | none => exact h
  | some items => exact hasEntry_mono_ingest_items p f.id items db i h

theorem ingest_feeds_nil (p : String → Option Int)
    (F : String → Option (List Item)) (db : DB) :
    ingest_feeds p F [] db = db := rfl

theorem ingest_feeds_cons (p : String → Option Int)
    (F : String → Option (List Item)) (f : Feed) (fs : List Feed) (db : DB) :
    ingest_feeds p F (f :: fs) db = ingest_feeds p F fs (ingest_one p F db f) := rfl

theorem ingest_feeds_feeds (p : String → Option Int)
    (F : String → Option (List Item)) (fs : List Feed) (db : DB) :
    (ingest_feeds p F fs db).feeds = db.feeds := by
  induction fs generalizing db with
  | nil => rfl
  | cons f fs ih => rw [ingest_feeds_cons, ih, ingest_one_feeds]

theorem hasEntry_mono_ingest_feeds (p : String → Option Int)
    (F : String → Option (List Item)) (fs : List Feed) (db : DB) (i : String)
    (h : hasEntry db i = true) : hasEntry (ingest_feeds p F fs db) i = true := by
  induction fs generalizing db with
  | nil => exact h
  | cons f fs ih =>
    rw [ingest_feeds_cons]
    exact ih _ (hasEntry_mono_ingest_one p F db f i h)

theorem hasEntry_ingest_feeds_mem (p : String → Option Int)
    (F : String → Option (List Item)) (fs : List Feed) (db : DB)
    (g : Feed) (items : List Item) (it : Item)
    (hg : g ∈ fs) (hitems : F g.url = some items) (hit : it ∈ items) :
    hasEntry (ingest_feeds p F fs db) (deriveEntryId it) = true := by
  induction fs generalizing db with
  | nil => cases hg
  | cons f fs ih =>
    rw [ingest_feeds_cons]
    rcases List.mem_cons.1 hg with h | h
    · subst h
      apply hasEntry_mono_ingest_feeds
      unfold ingest_one
      rw [hitems]
      exact hasEntry_ingest_items_mem p g.id items db it hit
    · exact ih _ h

theorem ingest_feeds_noop (p : String → Option Int)
    (F : String → Option (List Item)) (fs : List Feed) (db : DB)
    (h : ∀ g ∈ fs, ∀ items, F g.url = some items →
      ∀ it ∈ items, hasEntry db (deriveEntryId it) = true) :
    ingest_feeds p F fs db = db := by
  induction fs with
  | nil => rfl
  | cons f fs ih =>
    rw [ingest_feeds_cons]
    have hstep : ingest_one p F db f = db := by
      unfold ingest_one
      cases hF : F f.url with
      | none => rfl
      | some items =>
        exact ingest_items_noop p f.id items db
          (fun it hit => h f (List.mem_cons_self _ _) items hF it hit)
    rw [hstep]
    exact ih (fun g hg => h g (List.mem_cons_of_mem _ hg))

/-- C3: running the refresh ingestion twice with the same fetcher results
(the same `fetch` function, hence the identical item sequence per feed)
leaves the store exactly as after the first run: the second run changes no
Entry row (so there are no duplicates and no `read` flag is reset),
because every derived entry id is already present and `add_entry` is
insert-or-ignore. -/
theorem refresh_ingest_idempotent (p : String → Option Int)
    (F : String → Option (List Item)) (db : DB) :
    refresh_ingest p F (refresh_ingest p F db) = refresh_ingest p F db := by
  have hfeeds : (refresh_ingest p F db).feeds = db.feeds :=
    ingest_feeds_feeds p F db.feeds db
  show ingest_feeds p F (get_feeds (refresh_ingest p F db)) _ = _
  rw [get_feeds, hfeeds]
  apply ingest_feeds_noop
  intro g hg items hitems it hit
  exact hasEntry_ingest_feeds_mem p F db.feeds db g items it hg hitems hit

theorem add_feed_entries (db : DB) (u : String) (t : Option String) :
    (add_feed db u t).entries = db.entries := by
  unfold add_feed
  split <;> rfl

theorem mark_entries_map_id (db : DB) (X : String) :
    (mark_entry_read db X).entries.map (fun e => e.id)
      = db.entries.map (fun e => e.id) := by
  simp only [mark_entry_read, List.map_map]
  apply List.map_congr_left
  intro e _
  by_cases h : e.id = X <;> simp [h, Function.comp]

theorem eu_add_feed (db : DB) (u : String) (t : Option String)
    (h : EntriesUnique db) : EntriesUnique (add_feed db u t) := by
  rw [EntriesUnique, add_feed_entries]
  exact h

theorem eu_remove_feed (db : DB) (u : String)
    (h : EntriesUnique db) : EntriesUnique (remove_feed db u) := by
  unfold remove_feed
  cases findFeedId db u with
  | none => exact h
  | some fid =>
    exact List.Nodup.sublist (List.Sublist.map _ (List.filter_sublist _)) h

theorem eu_add_entry (db : DB) (eid : String) (fid : Nat) (t l : String)
    (p : Int) (h : EntriesUnique db) : EntriesUnique (add_entry db eid fid t l p) := by
  unfold add_entry
  split
  · exact h
  · rename_i hno
    have hni : ∀ e ∈ db.entries, ¬(e.id = eid) := by
      have : hasEntry db eid = false := by
        cases hb : hasEntry db eid
        · rfl
        · exact absurd hb hno
      simpa [hasEntry, List.any_eq_false] using this
    show ((db.entries ++ [(⟨eid, fid, t, l, p, false⟩ : Entry)]).map (fun e => e.id)).Nodup
    rw [List.map_append]
    rw [List.nodup_append]
    refine ⟨h, List.nodup_singleton _, ?_⟩
    intro a ha hb
    simp only [List.map_cons, List.map_nil, List.mem_singleton] at hb
    obtain ⟨e, he, rfl⟩ := List.mem_map.1 ha
    exact hni e he hb

theorem eu_mark (db : DB) (X : String) (h : EntriesUnique db) :
    EntriesUnique (mark_entry_read db X) := by
  rw [EntriesUnique, mark_entries_map_id]
  exact h

theorem eu_ingest_items (p : String → Option Int) (fid : Nat)
    (items : List Item) (db : DB) (h : EntriesUnique db) :
    EntriesUnique (ingest_items p fid items db) := by
  induction items generalizing db with
  | nil => exact h
  | cons it rest ih =>
    rw [ingest_items_cons]
    exact ih _ (eu_add_entry db _ fid _ _ _ h)

theorem eu_ingest_one (p : String → Option Int)
    (F : String → Option (List Item)) (db : DB) (f : Feed)
    (h : EntriesUnique db) : EntriesUnique (ingest_one p F db f) := by
  unfold ingest_one
  cases F f.url with
  | none => exact h
  | some items => exact eu_ingest_items p f.id items db h

theorem eu_ingest_feeds (p : String → Option Int)
    (F : String → Option (List Item)) (fs : List Feed) (db : DB)
    (h : EntriesUnique db) : EntriesUnique (ingest_feeds p F fs db) := by
  induction fs generalizing db with
  | nil => exact h
  | cons f fs ih =>
    rw [ingest_feeds_cons]
    exact ih _ (eu_ingest_one p F db f h)

theorem reachable_entries_unique (db : DB) (h : Reachable db) :
    EntriesUnique db := by
  induction h with
  | init => simp [EntriesUnique, initDb]
  | addFeed db u t _ ih => exact eu_add_feed db u t ih
  | removeFeed db u _ ih => exact eu_remove_feed db u ih
  | addEntry db eid fid t l p _ ih => exact eu_add_entry db eid fid t l p ih
  | markRead db eid _ ih => exact eu_mark db eid ih
  | refresh db pubParse fetch _ ih => exact eu_ingest_feeds pubParse fetch db.feeds db ih

/-- C5 counterexample: the claim's second half — a collision between two
different feeds' items "is not absorbed without signal" — is false.  In
the concrete store `dbTwo` (feeds 1 and 2, entry "x" owned by feed 1),
`add_entry` of feed 2's item with the same id "x" returns the store
completely unchanged: the colliding item is silently dropped (the
operation has no error result at all), and every stored entry still
belongs to feed 1. -/
theorem collision_silently_absorbed_cex :
    add_entry dbTwo "x" 2 "t2" "l2" 5 = dbTwo ∧
    ∀ e ∈ (add_entry dbTwo "x" 2 "t2" "l2" 5).entries, e.feed_id = 1 := by
  refine ⟨by decide, by decide⟩

/-- C5 amended: in every reachable store state, the Entry id is globally
unique across all feeds (at most one Entry row per id, enforced by the
TEXT PRIMARY KEY); a second item colliding on the id — from the same or a
different feed — is silently absorbed: `add_entry` is a no-op returning
the unchanged store, with no error signal. -/
theorem entry_id_globally_unique (db : DB) (h : Reachable db) :
    EntriesUnique db ∧
    ∀ x fid t l p, hasEntry db x = true → add_entry db x fid t l p = db :=
  ⟨reachable_entries_unique db h,
   fun x fid t l p hx => add_entry_of_hasEntry db x fid t l p hx⟩

/-- Witness for the amended C5: `dbTwo` is reachable (built by two
`add_feed`s and one `add_entry` from the fresh schema), its entry ids are
unique, and re-adding id "x" from feed 2 leaves it unchanged. -/
theorem entry_id_globally_unique_witness :
    EntriesUnique dbTwo ∧ add_entry dbTwo "x" 2 "t2" "l2" 9 = dbTwo :=
  have hreach : Reachable dbTwo :=
    Reachable.addEntry _ "x" 1 "t" "l" 5
      (Reachable.addFeed _ "u2" none (Reachable.addFeed _ "u1" none Reachable.init))
  ⟨(entry_id_globally_unique dbTwo hreach).1,
   (entry_id_globally_unique dbTwo hreach).2 "x" 2 "t2" "l2" 9 (by decide)⟩

theorem landed_add_entry (db : DB) (eid : String) (fid : Nat) (t l : String)
    (p : Int) (did : String) (fids : List Nat)
    (h : entryLanded db did fids) :
    entryLanded (add_entry db eid fid t l p) did fids := by
  obtain ⟨e, he, h1, h2, h3⟩ := h
  exact ⟨e, mem_entries_add_entry db eid fid t l p e he, h1, h2, h3⟩

theorem landed_ingest_items (p : String → Option Int) (fid : Nat)
    (items : List Item) (db : DB) (did : String) (fids : List Nat)
    (h : entryLanded db did fids) :
    entryLanded (ingest_items p fid items db) did fids := by
  induction items generalizing db with
  | nil => exact h
  | cons it rest ih =>
    rw [ingest_items_cons]
    exact ih _ (landed_add_entry db _ fid _ _ _ did fids h)

theorem landed_ingest_one (p : String → Option Int)
    (F : String → Option (List Item)) (db : DB) (f : Feed)
    (did : String) (fids : List Nat) (h : entryLanded db did fids) :
    entryLanded (ingest_one p F db f) did fids := by
  unfold ingest_one
  cases F f.url with
  | none => exact h
  | some items => exact landed_ingest_items p f.id items db did fids h

theorem landed_ingest_feeds (p : String → Option Int)
    (F : String → Option (List Item)) (fs : List Feed) (db : DB)
    (did : String) (fids : List Nat) (h : entryLanded db did fids) :
    entryLanded (ingest_feeds p F fs db) did fids := by
  induction fs generalizing db with
  | nil => exact h
  | cons f fs ih =>
    rw [ingest_feeds_cons]
    exact ih _ (landed_ingest_one p F db f did fids h)

theorem hasEntry_add_entry_of_ne (db : DB) (eid : String) (fid : Nat)
    (t l : String) (p : Int) (did : String) (hne : ¬(eid = did))
    (h : hasEntry db did = false) :
    hasEntry (add_entry db eid fid t l p) did = false := by
  unfold add_entry
  split
  · exact h
  · simp only [hasEntry, List.any_append] at *
    rw [h]
    simp [hne]

theorem landed_add_entry_fresh (db : DB) (did : String) (fid : Nat)
    (t l : String) (p : Int) (fids : List Nat) (hfid : fid ∈ fids)
    (h : hasEntry db did = false) :
    entryLanded (add_entry db did fid t l p) did fids := by
  refine ⟨⟨did, fid, t, l, p, false⟩, ?_, rfl, rfl, hfid⟩
  unfold add_entry
  rw [h]
  simp

theorem pre_add_entry (db : DB) (eid : String) (fid : Nat) (t l : String)
    (p : Int) (did : String) (fids : List Nat) (hfid : fid ∈ fids)
    (h : entryPre db did fids) :
    entryPre (add_entry db eid fid t l p) did fids := by
  rcases h with h | h
  · by_cases heq : eid = did
    · subst heq
      exact Or.inr (landed_add_entry_fresh db eid fid t l p fids hfid h)
    · exact Or.inl (hasEntry_add_entry_of_ne db eid fid t l p did heq h)
  · exact Or.inr (landed_add_entry db eid fid t l p did fids h)

theorem pre_ingest_items (p : String → Option Int) (fid : Nat)
    (items : List Item) (db : DB) (did : String) (fids : List Nat)
    (hfid : fid ∈ fids) (h : entryPre db did fids) :
    entryPre (ingest_items p fid items db) did fids := by
  induction items generalizing db with
  | nil => exact h
  | cons it rest ih =>
    rw [ingest_items_cons]
    exact ih _ (pre_add_entry db _ fid _ _ _ did fids hfid h)

theorem pre_ingest_one (p : String → Option Int)
    (F : String → Option (List Item)) (db : DB) (f : Feed)
    (did : String) (fids : List Nat) (hfid : f.id ∈ fids)
    (h : entryPre db did fids) :
    entryPre (ingest_one p F db f) did fids := by
  unfold ingest_one
  cases F f.url with
  | none => exact h
  | some items => exact pre_ingest_items p f.id items db did fids hfid h

theorem ingest_items_creates (p : String → Option Int) (fid : Nat)
    (items : List Item) (db : DB) (it : Item) (fids : List Nat)
    (hfid : fid ∈ fids) (hit : it ∈ items)
    (h : entryPre db (deriveEntryId it) fids) :
    entryLanded (ingest_items p fid items db) (deriveEntryId it) fids := by
  revert hit h
  induction items generalizing db with
  | nil =>
    intro hit _
    cases hit
  | cons it0 rest ih =>
    intro hit h
    rw [ingest_items_cons]
    rcases List.mem_cons.1 hit with heq | hmem
    · subst heq
      apply landed_ingest_items
      rcases h with h | h
      · exact landed_add_entry_fresh db _ fid _ _ _ fids hfid h
      · exact landed_add_entry db _ fid _ _ _ _ fids h
    · exact ih _ hmem (pre_add_entry db _ fid _ _ _ _ fids hfid h)

theorem ingest_one_creates (p : String → Option Int)
    (F : String → Option (List Item)) (db : DB) (g : Feed)
    (items : List Item) (it : Item) (fids : List Nat)
    (hfid : g.id ∈ fids) (hfetch : F g.url = some items) (hit : it ∈ items)
    (h : entryPre db (deriveEntryId it) fids) :
    entryLanded (ingest_one p F db g) (deriveEntryId it) fids := by
  unfold ingest_one
  rw [hfetch]
  exact ingest_items_creates p g.id items db it fids hfid hit h

theorem ingest_feeds_creates (p : String → Option Int)
    (F : String → Option (List Item)) (fs : List Feed) (db : DB)
    (g : Feed) (items : List Item) (it : Item) (fids : List Nat)
    (hids : ∀ g0 ∈ fs, g0.id ∈ fids) (hg : g ∈ fs)
    (hfetch : F g.url = some items) (hit : it ∈ items)
    (h : entryPre db (deriveEntryId it) fids) :
    entryLanded (ingest_feeds p F fs db) (deriveEntryId it) fids := by
  revert hids hg h
  induction fs generalizing db with
  | nil =>
    intro _ hg _
    cases hg
  | cons f fs ih =>
    intro hids hg h
    rw [ingest_feeds_cons]
    rcases List.mem_cons.1 hg with heq | hmem
    · subst heq
      apply landed_ingest_feeds
      exact ingest_one_creates p F db g items it fids
        (hids g (List.mem_cons_self _ _)) hfetch hit h
    · exact ih _ (fun g0 hg0 => hids g0 (List.mem_cons_of_mem _ hg0)) hmem
        (pre_ingest_one p F db f _ fids (hids f (List.mem_cons_self _ _)) h)

/-- C9: a fetch or parse failure for any subset of feeds cannot abort the
refresh — `fetch` is arbitrary here, so other feeds may fail (return
`none`) freely — and every item of a feed whose fetch succeeds still
lands: if feed `f` is subscribed, its fetch returns `items`, `it` is one
of them and no entry with its derived id existed before, then after the
refresh ingestion `get_unread_entries` contains a row with that id. -/
theorem refresh_failed_feed_isolated (p : String → Option Int)
    (F : String → Option (List Item)) (db : DB) (f : Feed)
    (items : List Item) (it : Item) (hf : f ∈ db.feeds)
    (hfetch : F f.url = some items) (hit : it ∈ items)
    (hnew : hasEntry db (deriveEntryId it) = false) :
    ∃ r ∈ get_unread_entries (refresh_ingest p F db), r.id = deriveEntryId it := by
  have hl : entryLanded (refresh_ingest p F db) (deriveEntryId it)
      (db.feeds.map (fun g => g.id)) :=
    ingest_feeds_creates p F db.feeds db f items it _
      (fun g0 hg0 => List.mem_map_of_mem _ hg0) hf hfetch hit (Or.inl hnew)
  obtain ⟨e, he, hid, hrd, hfid⟩ := hl
  obtain ⟨g, hg, hgid⟩ := List.mem_map.1 hfid
  have hfeeds : (refresh_ingest p F db).feeds = db.feeds :=
    ingest_feeds_feeds p F db.feeds db
  refine ⟨⟨e.id, e.title, e.link, e.published, g.url⟩, ?_, hid⟩
  rw [mem_get_unread]
  exact ⟨e, he, hrd, g, by rw [hfeeds]; exact hg, hgid, rfl⟩

/-- Witness for C9 at a concrete refresh: two feeds "u1" and "u2", the
fetch of "u1" fails, "u2" yields one item with guid "g2"; after the
refresh the unread query contains a row with id "g2". -/
theorem refresh_failed_feed_isolated_witness :
    (⟨2, "u2", "u2"⟩ : Feed) ∈ dbTwoFeeds.feeds ∧
    fetchTwo "u2" = some [⟨some "g2", some "t2", "l2", some "Jan"⟩] ∧
    fetchTwo "u1" = none ∧
    ∃ r ∈ get_unread_entries (refresh_ingest (fun _ => none) fetchTwo dbTwoFeeds),
      r.id = deriveEntryId ⟨some "g2", some "t2", "l2", some "Jan"⟩ :=
  ⟨by decide, by decide, by decide,
   refresh_failed_feed_isolated (fun _ => none) fetchTwo dbTwoFeeds
     ⟨2, "u2", "u2"⟩ [⟨some "g2", some "t2", "l2", some "Jan"⟩]
     ⟨some "g2", some "t2", "l2", some "Jan"⟩
     (by decide) (by decide) (by decide) (by decide)⟩

/-- Witness for C10 at a concrete store: the single row produced by
`dbTwo` comes from entry "x" and feed 1. -/
theorem unread_rows_have_existing_feed_witness :
    (⟨"x", "t", "l", 5, "u1"⟩ : UnreadRow) ∈ get_unread_entries dbTwo ∧
    ∃ e, e ∈ dbTwo.entries ∧ e.rd = false ∧
      ∃ f, f ∈ dbTwo.feeds ∧ f.id = e.feed_id ∧
        (⟨"x", "t", "l", 5, "u1"⟩ : UnreadRow) =
          ⟨e.id, e.title, e.link, e.published, f.url⟩ :=
  ⟨by decide, unread_rows_have_existing_feed dbTwo ⟨"x", "t", "l", 5, "u1"⟩ (by decide)⟩

end RSSReader
